import Mathlib

set_option maxHeartbeats 1000000

/-
Shallow embedding of the runtime data layer of ozz-animation-rs:
src/base.rs (error taxonomy, buffer access abstraction) and
src/skeleton.rs (skeleton data model, archive decoding, hierarchy
traversal).  Machine integers are modelled as Nat/Int; i16/i32 values
carried by the skeleton are modelled as Int.
-/

namespace Ozz

/-- Error taxonomy of src/base.rs (enum OzzError).  The payloads of the
io and utf8 variants (std::io::Error / std::str::Utf8Error causes) are
modelled as opaque Nat codes. -/
inductive OzzError where
  | LockPoison
  | InvalidJob
  | InvalidIndex
  | io (cause : Nat)
  | utf8 (cause : Nat)
  | InvalidTag
  | InvalidVersion
  | Custom (msg : String)
deriving DecidableEq, Repr

/-- Modelled from the spec: the external bimap crate's BiHashMap used as
JointHashMap.  A bidirectional map is represented as an association list
of (name, index) pairs whose left and right projections are both
duplicate-free; this is the datatype invariant the bimap crate maintains
(its insert removes any pair sharing the new left or the new right). -/
structure JointHashMap where
  pairs : List (String × Int)
  left_uniq : pairs.Pairwise (fun p q => p.1 ≠ q.1)
  right_uniq : pairs.Pairwise (fun p q => p.2 ≠ q.2)

/-- Empty bidirectional joint-name map (BiHashMap::with_hashers). -/
def JointHashMap.empty : JointHashMap := ⟨[], List.Pairwise.nil, List.Pairwise.nil⟩

/-- Lookup by name (bimap get_by_left). -/
def JointHashMap.get_by_left (m : JointHashMap) (name : String) : Option Int :=
  (m.pairs.find? (fun p => decide (p.1 = name))).map Prod.snd

/-- Lookup by index (bimap get_by_right). -/
def JointHashMap.get_by_right (m : JointHashMap) (idx : Int) : Option String :=
  (m.pairs.find? (fun p => decide (p.2 = idx))).map Prod.fst

theorem JointHashMap.insert_left_uniq (m : JointHashMap) (name : String) (idx : Int) :
    ((name, idx) :: m.pairs.filter
      (fun p => decide (p.1 ≠ name ∧ p.2 ≠ idx))).Pairwise (fun p q => p.1 ≠ q.1) := by
  refine List.Pairwise.cons ?_ (m.left_uniq.filter _)
  intro q hq
  have := (List.mem_filter.mp hq).2
  simp only [decide_eq_true_eq] at this
  exact fun h => this.1 h.symm

theorem JointHashMap.insert_right_uniq (m : JointHashMap) (name : String) (idx : Int) :
    ((name, idx) :: m.pairs.filter
      (fun p => decide (p.1 ≠ name ∧ p.2 ≠ idx))).Pairwise (fun p q => p.2 ≠ q.2) := by
  refine List.Pairwise.cons ?_ (m.right_uniq.filter _)
  intro q hq
  have := (List.mem_filter.mp hq).2
  simp only [decide_eq_true_eq] at this
  exact fun h => this.2 h.symm

/-- Overwriting insert (bimap insert): any existing pair sharing the new
name or the new index is removed before the new pair is added. -/
def JointHashMap.insert (m : JointHashMap) (name : String) (idx : Int) : JointHashMap :=
  ⟨(name, idx) :: m.pairs.filter (fun p => decide (p.1 ≠ name ∧ p.2 ≠ idx)),
    m.insert_left_uniq name idx, m.insert_right_uniq name idx⟩

/-- Modelled from the spec: opaque SoA-packed rest transform record of
the external math module (SoaTransform), carried around as uninterpreted
data. -/
structure SoaTransform where
  raw : Nat
deriving DecidableEq, Repr

/-- Runtime skeleton data structure (struct Skeleton in src/skeleton.rs).
Parent indices are i16 values, modelled as Int. -/
structure Skeleton where
  joint_rest_poses : List SoaTransform
  joint_parents : List Int
  joint_names : JointHashMap

/-- Skeleton meta decoded from an archive (struct SkeletonMeta). -/
structure SkeletonMeta where
  version : Nat
  num_joints : Int
  joint_names : JointHashMap
  joint_parents : List Int

/-- Resource file tag (Skeleton::tag). -/
def skeletonTag : String := "ozz-skeleton"

/-- Resource file version (Skeleton::version). -/
def skeletonVersion : Nat := 2

/-- Skeleton::num_joints: length of the joint_parents array. -/
def Skeleton.num_joints (s : Skeleton) : Nat := s.joint_parents.length

/-- Skeleton::num_aligned_joints: (num_joints + 3) & !0x3 on usize,
modelled with the 64-bit wraparound of the addition made explicit. -/
def Skeleton.num_aligned_joints (s : Skeleton) : Nat :=
  ((s.num_joints + 3) % 2 ^ 64) &&& (2 ^ 64 - 4)

/-- Skeleton::num_soa_joints: (joint_parents.len() + 3) / 4 on usize. -/
def Skeleton.num_soa_joints (s : Skeleton) : Nat :=
  ((s.joint_parents.length + 3) % 2 ^ 64) / 4

/-- Skeleton::joint_parent: indexing into joint_parents.  The source
indexes unchecked (panics out of range); every use below is in range, and
out-of-range access is given the junk value 0. -/
def Skeleton.joint_parent (s : Skeleton) (i : Nat) : Int :=
  s.joint_parents.getD i 0

/-- Skeleton::joint_by_name. -/
def Skeleton.joint_by_name (s : Skeleton) (name : String) : Option Int :=
  s.joint_names.get_by_left name

/-- Skeleton::name_by_joint. -/
def Skeleton.name_by_joint (s : Skeleton) (idx : Int) : Option String :=
  s.joint_names.get_by_right idx

/-- Skeleton::is_leaf: a joint is a leaf if it is the last joint, or the
next joint's parent is not this joint. -/
def Skeleton.is_leaf (s : Skeleton) (joint : Nat) : Bool :=
  joint + 1 = s.num_joints || decide (s.joint_parent (joint + 1) ≠ (joint : Int))

/-- Loop body of Skeleton::iter_depth_first: already at a joint i that
will be processed, emit (i, parent) and continue to i+1 while the next
joint exists and its parent index is at least the start index.  The fuel
argument bounds the remaining iterations; callers pass num_joints - i,
which the loop never exhausts. -/
def Skeleton.iterDFAux (s : Skeleton) (fromI : Int) : Nat → Nat → List (Nat × Int)
  | 0, _ => []
  | fuel + 1, i =>
    (i, s.joint_parent i) ::
      (if i + 1 < s.num_joints ∧ fromI ≤ s.joint_parent (i + 1) then
        s.iterDFAux fromI fuel (i + 1)
      else [])

/-- Skeleton::iter_depth_first, as the trace of (joint, parent) pairs
passed to the callback, in call order.  A negative start means the root. -/
def Skeleton.iter_depth_first (s : Skeleton) (fromI : Int) : List (Nat × Int) :=
  let start := if fromI < 0 then 0 else fromI.toNat
  if start < s.num_joints then s.iterDFAux fromI (s.num_joints - start) start else []

/-- Skeleton::iter_depth_first_reverse, as the trace of (joint, parent)
pairs passed to the callback: the loop runs over (0..num_joints).rev(). -/
def Skeleton.iter_depth_first_reverse (s : Skeleton) : List (Nat × Int) :=
  (List.range s.num_joints).reverse.map (fun i => (i, s.joint_parent i))

/-- Pre-order storage invariant: joint 0 carries the root sentinel -1 and
every later joint's parent precedes it in storage order. -/
def Skeleton.preOrderInv (s : Skeleton) : Prop :=
  s.joint_parent 0 = -1 ∧
    ∀ i, i < s.num_joints → 0 < i → s.joint_parent i < (i : Int)

/-- One parent step in the hierarchy: joint j is stored and its parent
entry designates joint p. -/
def Skeleton.parentLink (s : Skeleton) (j p : Nat) : Prop :=
  j < s.num_joints ∧ s.joint_parent j = (p : Int)

/-- Joint j belongs to the subtree rooted at root: following parent links
from j reaches root. -/
def Skeleton.inSubtree (s : Skeleton) (root j : Nat) : Prop :=
  Relation.ReflTransGen s.parentLink j root

/-- Index of the first joint after f that the forward traversal rejects:
walk forward from f+1 while the parent index stays at least f. -/
def Skeleton.subtreeEnd (s : Skeleton) (f : Nat) : Nat :=
  f + 1 + ((List.range' (f + 1) (s.num_joints - (f + 1))).takeWhile
    (fun j => decide ((f : Int) ≤ s.joint_parent j))).length

/-- Buffer ownership strategies of the buffer access abstraction in
src/base.rs, one constructor per type implementing the OzzBuf trait:
borrowed slice, mutable borrowed slice, owned vector, single-thread
shared cell, and cross-thread shared reader-writer lock (which carries
its poison flag). -/
inductive OzzBufSrc (T : Type) where
  | sliceRef (data : List T)
  | sliceMut (data : List T)
  | vecOwned (data : List T)
  | rcRefCell (data : List T)
  | arcRwLock (poisoned : Bool) (data : List T)

/-- OzzBuf::buf for each implementation in src/base.rs: every non-lock
strategy wraps its elements directly; the RwLock strategy maps a
poisoned lock (std read() returning Err) to LockPoison. -/
def OzzBufSrc.buf {T : Type} : OzzBufSrc T → Except OzzError (List T)
  | .sliceRef d => .ok d
  | .sliceMut d => .ok d
  | .vecOwned d => .ok d
  | .rcRefCell d => .ok d
  | .arcRwLock p d => if p then .error .LockPoison else .ok d

/-- OzzMutBuf::mut_buf.  The borrowed immutable slice has no OzzMutBuf
implementation, hence none; the other strategies mirror buf, with the
RwLock strategy mapping a poisoned lock (std write() returning Err) to
LockPoison. -/
def OzzBufSrc.mut_buf {T : Type} : OzzBufSrc T → Option (Except OzzError (List T))
  | .sliceRef _ => none
  | .sliceMut d => some (.ok d)
  | .vecOwned d => some (.ok d)
  | .rcRefCell d => some (.ok d)
  | .arcRwLock p d => some (if p then .error .LockPoison else .ok d)

/-- Modelled from the spec: one value decoded by the external archive
codec (read::<i32>, read::<String>, read_vec::<i16>, read::<SoaTransform>). -/
inductive Val where
  | vi32 (n : Int)
  | vstr (s : String)
  | vi16s (l : List Int)
  | vtransform (t : SoaTransform)
deriving DecidableEq, Repr

/-- Payload of a decoded value when an i32 was requested. -/
def Val.toI32 : Val → Int
  | .vi32 n => n
  | _ => 0

/-- Payload of a decoded value when a String was requested. -/
def Val.toStr : Val → String
  | .vstr s => s
  | _ => ""

/-- Payload of a decoded value when a vector of i16 was requested. -/
def Val.toI16s : Val → List Int
  | .vi16s l => l
  | _ => []

/-- Payload of a decoded value when a SoaTransform was requested. -/
def Val.toTransform : Val → SoaTransform
  | .vtransform t => t
  | _ => ⟨0⟩

/-- Modelled from the spec: the external archive reader.  It exposes the
already-validated tag and version of the stream and a sequence of read
outcomes, one per read call issued by the decoder; a read outcome is
either a decoded value or the error (IO or Utf8) the codec reports. -/
structure Archive where
  tag : String
  version : Nat
  items : List (Except OzzError Val)

/-- One read call against the archive: the next outcome is consumed; an
exhausted stream is a truncated byte stream, reported as an IO error. -/
def Archive.readItem (a : Archive) : Except OzzError (Val × Archive) :=
  match a.items with
  | [] => .error (.io 0)
  | .error e :: _ => .error e
  | .ok v :: rest => .ok (v, ⟨a.tag, a.version, rest⟩)

/-- archive.read::<i32>(). -/
def Archive.readI32 (a : Archive) : Except OzzError (Int × Archive) :=
  match a.readItem with
  | .error e => .error e
  | .ok (v, a') => .ok (v.toI32, a')

/-- archive.read::<String>(). -/
def Archive.readStr (a : Archive) : Except OzzError (String × Archive) :=
  match a.readItem with
  | .error e => .error e
  | .ok (v, a') => .ok (v.toStr, a')

/-- archive.read_vec::<i16>(n). -/
def Archive.readI16Vec (a : Archive) (_n : Nat) : Except OzzError (List Int × Archive) :=
  match a.readItem with
  | .error e => .error e
  | .ok (v, a') => .ok (v.toI16s, a')

/-- archive.read::<SoaTransform>(). -/
def Archive.readTransform (a : Archive) : Except OzzError (SoaTransform × Archive) :=
  match a.readItem with
  | .error e => .error e
  | .ok (v, a') => .ok (v.toTransform, a')

/-- Name-reading loop of Skeleton::read_meta: for idx in 0..total, read a
string and insert it into the bidirectional map under index idx as i16
(the cast wraps, modelled by Int.bmod at width 16). -/
def readNamesAux (a : Archive) (m : JointHashMap) (idx total : Nat) :
    Except OzzError (JointHashMap × Archive) :=
  if _h : idx < total then
    match a.readStr with
    | .error e => .error e
    | .ok (s, a') => readNamesAux a' (m.insert s (Int.bmod idx (2 ^ 16))) (idx + 1) total
  else .ok (m, a)
termination_by total - idx
decreasing_by omega

/-- Skeleton::read_meta, returning the decoded meta together with the
archive state left behind (the Rust function mutates the reader). -/
def readMeta (a : Archive) (withJoints : Bool) :
    Except OzzError (SkeletonMeta × Archive) :=
  if a.tag ≠ skeletonTag then .error .InvalidTag
  else if a.version ≠ skeletonVersion then .error .InvalidVersion
  else
    match a.readI32 with
    | .error e => .error e
    | .ok (numJoints, a1) =>
      if numJoints = 0 ∨ withJoints = false then
        .ok (⟨skeletonVersion, numJoints, JointHashMap.empty, []⟩, a1)
      else
        match a1.readI32 with
        | .error e => .error e
        | .ok (_, a2) =>
          match readNamesAux a2 JointHashMap.empty 0 numJoints.toNat with
          | .error e => .error e
          | .ok (names, a3) =>
            match a3.readI16Vec numJoints.toNat with
            | .error e => .error e
            | .ok (parents, a4) =>
              .ok (⟨skeletonVersion, numJoints, names, parents⟩, a4)

/-- Rest-pose reading loop of Skeleton::from_archive: read count
SoaTransform records in order. -/
def readPoses (a : Archive) : Nat → Except OzzError (List SoaTransform × Archive)
  | 0 => .ok ([], a)
  | n + 1 =>
    match a.readTransform with
    | .error e => .error e
    | .ok (t, a') =>
      match readPoses a' n with
      | .error e => .error e
      | .ok (ts, a'') => .ok (t :: ts, a'')

/-- Skeleton::from_archive: read the meta with joints, then
(num_joints + 3) / 4 rest-pose records (i32 division truncates toward
zero; a non-positive count yields an empty loop, as an empty Rust range
does). -/
def fromArchive (a : Archive) : Except OzzError (Skeleton × Archive) :=
  match readMeta a true with
  | .error e => .error e
  | .ok (meta, a1) =>
    match readPoses a1 ((Int.tdiv (meta.num_joints + 3) 4).toNat) with
    | .error e => .error e
    | .ok (ts, a2) =>
      .ok (⟨ts, meta.joint_parents, meta.joint_names⟩, a2)

/-- Concrete five-joint skeleton used to instantiate the statements
below: a root with two children, the first of which has two children of
its own (pre-order storage). -/
def sk5 : Skeleton := ⟨[], [-1, 0, 1, 1, 0], JointHashMap.empty⟩

/-- C2: buf never fails for the non-lock ownership strategies, mut_buf
never fails for the non-lock strategies that implement it (the immutable
borrowed slice has no mut_buf), and for the cross-thread shared lock both
views fail with LockPoison exactly when the lock is poisoned and
otherwise expose the underlying elements. -/
theorem c2_buffer_views (T : Type) (d : List T) (p : Bool) :
    (OzzBufSrc.sliceRef d).buf = .ok d
    ∧ (OzzBufSrc.sliceMut d).buf = .ok d
    ∧ (OzzBufSrc.vecOwned d).buf = .ok d
    ∧ (OzzBufSrc.rcRefCell d).buf = .ok d
    ∧ (OzzBufSrc.sliceRef d : OzzBufSrc T).mut_buf = none
    ∧ (OzzBufSrc.sliceMut d).mut_buf = some (.ok d)
    ∧ (OzzBufSrc.vecOwned d).mut_buf = some (.ok d)
    ∧ (OzzBufSrc.rcRefCell d).mut_buf = some (.ok d)
    ∧ ((OzzBufSrc.arcRwLock p d).buf = .error .LockPoison ↔ p = true)
    ∧ ((OzzBufSrc.arcRwLock p d).buf = .ok d ↔ p = false)
    ∧ ((OzzBufSrc.arcRwLock p d).mut_buf = some (.error .LockPoison) ↔ p = true)
    ∧ ((OzzBufSrc.arcRwLock p d).mut_buf = some (.ok d) ↔ p = false) := by
  cases p <;> simp [OzzBufSrc.buf, OzzBufSrc.mut_buf]

/-- C4: for a stored joint, is_leaf holds exactly when the joint is the
last stored joint or the next stored joint's parent is not this joint. -/
theorem c4_is_leaf_iff (s : Skeleton) (i : Nat) (h : i < s.num_joints) :
    s.is_leaf i = true ↔
      (i + 1 = s.num_joints ∨ s.joint_parent (i + 1) ≠ (i : Int)) := by
  simp [Skeleton.is_leaf]

/-- Witness for C4 on the concrete skeleton. -/
theorem c4_is_leaf_iff_witness :
    (3 < sk5.num_joints)
    ∧ (sk5.is_leaf 3 = true ↔
        (3 + 1 = sk5.num_joints ∨ sk5.joint_parent (3 + 1) ≠ (3 : Int))) :=
  ⟨by decide, c4_is_leaf_iff sk5 3 (by decide)⟩

theorem land_two_mul (a b : Nat) : a &&& (2 * b) = 2 * (a / 2 &&& b) := by
  have hmod : (a &&& 2 * b) % 2 = 0 := by
    have h2 : (2 * b) % 2 = 0 := Nat.mul_mod_right 2 b
    have h3 := @Nat.and_mod_two_eq_one a (2 * b)
    omega
  have hdiv : (a &&& 2 * b) / 2 = a / 2 &&& b := by
    rw [Nat.and_div_two, Nat.mul_div_cancel_left b (by norm_num)]
  have := Nat.div_add_mod (a &&& 2 * b) 2
  omega

theorem land_mask_64 (x : Nat) (h : x < 2 ^ 64) :
    x &&& (2 ^ 64 - 4) = 4 * (x / 4) := by
  have e1 : (2 : Nat) ^ 64 - 4 = 2 * (2 * (2 ^ 62 - 1)) := by norm_num
  rw [e1, land_two_mul, land_two_mul, Nat.and_pow_two_sub_one_eq_mod]
  have e2 : x / 2 / 2 = x / 4 := by omega
  rw [e2, Nat.mod_eq_of_lt (by omega)]
  ring

/-- C10: the SoA-aligned joint count equals four times the SoA group
count, and both are functions of the joint_parents length alone. -/
theorem c10_aligned_eq_four_soa (s : Skeleton) (h : s.num_joints + 3 < 2 ^ 64) :
    s.num_aligned_joints = 4 * s.num_soa_joints
    ∧ (∀ s2 : Skeleton, s2.joint_parents.length = s.joint_parents.length →
        s2.num_aligned_joints = s.num_aligned_joints
        ∧ s2.num_soa_joints = s.num_soa_joints) := by
  constructor
  · unfold Skeleton.num_aligned_joints Skeleton.num_soa_joints
    unfold Skeleton.num_joints at h ⊢
    rw [Nat.mod_eq_of_lt h, land_mask_64 _ h]
  · intro s2 hlen
    unfold Skeleton.num_aligned_joints Skeleton.num_soa_joints Skeleton.num_joints
    rw [hlen]
    exact ⟨rfl, rfl⟩

/-- Witness for C10 on the concrete skeleton. -/
theorem c10_aligned_eq_four_soa_witness :
    sk5.num_aligned_joints = 4 * sk5.num_soa_joints :=
  (c10_aligned_eq_four_soa sk5 (by decide)).1

/-- C7: reverse depth-first iteration emits exactly one pair per joint,
joint i together with its stored parent at position num_joints - 1 - i,
in strictly decreasing joint order; under the pre-order invariant every
child's position precedes its parent's position. -/
theorem c7_reverse_traversal (s : Skeleton) :
    s.iter_depth_first_reverse.length = s.num_joints
    ∧ (∀ i, i < s.num_joints →
        s.iter_depth_first_reverse.getD (s.num_joints - 1 - i) (0, 0)
          = (i, s.joint_parent i))
    ∧ List.Pairwise (fun q r => r.1 < q.1) s.iter_depth_first_reverse
    ∧ ((∀ i, i < s.num_joints → 0 < i → s.joint_parent i < (i : Int)) →
        ∀ j, j < s.num_joints → 0 < j →
          s.num_joints - 1 - j < s.num_joints - 1 - (s.joint_parent j).toNat) := by
  refine ⟨?_, ?_, ?_, ?_⟩
  · simp [Skeleton.iter_depth_first_reverse]
  · intro i hi
    have hl : s.num_joints - 1 - i < s.iter_depth_first_reverse.length := by
      simp only [Skeleton.iter_depth_first_reverse, List.length_map,
        List.length_reverse, List.length_range]
      omega
    rw [List.getD_eq_getElem _ _ hl]
    simp only [Skeleton.iter_depth_first_reverse, List.getElem_map,
      List.getElem_reverse, List.length_range, List.getElem_range]
    have e1 : s.num_joints - 1 - (s.num_joints - 1 - i) = i := by omega
    rw [e1]
  · unfold Skeleton.iter_depth_first_reverse
    rw [List.pairwise_map, List.pairwise_reverse]
    exact List.pairwise_lt_range s.num_joints
  · intro hinv j hj hj0
    have := hinv j hj hj0
    omega

/-- Witness for C7 on the concrete skeleton. -/
theorem c7_reverse_traversal_witness :
    sk5.iter_depth_first_reverse.length = sk5.num_joints
    ∧ sk5.iter_depth_first_reverse.getD (sk5.num_joints - 1 - 2) (0, 0)
        = (2, sk5.joint_parent 2)
    ∧ sk5.num_joints - 1 - 3 < sk5.num_joints - 1 - (sk5.joint_parent 3).toNat :=
  ⟨(c7_reverse_traversal sk5).1,
   (c7_reverse_traversal sk5).2.1 2 (by decide),
   (c7_reverse_traversal sk5).2.2.2 (by decide) 3 (by decide) (by decide)⟩

theorem iterDFAux_eq_range' (s : Skeleton) (fromI : Int) (e : Nat)
    (he : e ≤ s.num_joints)
    (hstop : e < s.num_joints → s.joint_parent e < fromI) :
    ∀ fuel i, i < e → e - i ≤ fuel →
      (∀ j, i < j → j < e → fromI ≤ s.joint_parent j) →
      s.iterDFAux fromI fuel i
        = (List.range' i (e - i)).map (fun j => (j, s.joint_parent j)) := by
  intro fuel
  induction fuel with
  | zero => intro i hi hfi _; omega
  | succ g ih =>
    intro i hi hfi hin
    by_cases hnext : i + 1 < e
    · have hcond : i + 1 < s.num_joints ∧ fromI ≤ s.joint_parent (i + 1) :=
        ⟨by omega, hin (i + 1) (by omega) hnext⟩
      rw [Skeleton.iterDFAux, if_pos hcond,
        ih (i + 1) hnext (by omega) (fun j hj1 hj2 => hin j (by omega) hj2)]
      have hr : e - i = (e - (i + 1)) + 1 := by omega
      rw [hr, List.range'_succ, List.map_cons]
    · have hie : i + 1 = e := by omega
      have hcond : ¬ (i + 1 < s.num_joints ∧ fromI ≤ s.joint_parent (i + 1)) := by
        intro ⟨h1, h2⟩
        rw [hie] at h1 h2
        exact absurd h2 (not_le.mpr (hstop h1))
      rw [Skeleton.iterDFAux, if_neg hcond]
      have hr : e - i = 1 := by omega
      rw [hr]
      rfl

theorem takeWhile_getElem_true {α : Type} (p : α → Bool) :
    ∀ (l : List α) (i : Nat), i < (l.takeWhile p).length →
      ∃ h2 : i < l.length, p (l.get ⟨i, h2⟩) = true := by
  intro l
  induction l with
  | nil => intro i h; simp at h
  | cons a t ih =>
    intro i h
    by_cases hp : p a
    · rw [List.takeWhile_cons_of_pos hp] at h
      cases i with
      | zero => exact ⟨by simp, hp⟩
      | succ i =>
        obtain ⟨h2, hpt⟩ := ih i (by simpa using h)
        exact ⟨by simpa using Nat.succ_lt_succ h2, hpt⟩
    · rw [List.takeWhile_cons_of_neg hp] at h
      simp at h

theorem takeWhile_getElem_false {α : Type} (p : α → Bool) :
    ∀ (l : List α) (h : (l.takeWhile p).length < l.length),
      p (l.get ⟨(l.takeWhile p).length, h⟩) = false := by
  intro l
  induction l with
  | nil => intro h; simp at h
  | cons a t ih =>
    by_cases hp : p a
    · intro h
      have hlen : ((a :: t).takeWhile p).length = (t.takeWhile p).length + 1 := by
        rw [List.takeWhile_cons_of_pos hp]; rfl
      have h2 : (t.takeWhile p).length < t.length := by
        simp only [List.length_cons] at h; omega
      have := ih h2
      simp only [hlen]
      simpa using this
    · intro h
      have hlen : ((a :: t).takeWhile p).length = 0 := by
        rw [List.takeWhile_cons_of_neg hp]; rfl
      simp only [hlen]
      simpa using hp

theorem subtreeEnd_facts (s : Skeleton) (f : Nat) (hf : f < s.num_joints) :
    f < s.subtreeEnd f ∧ s.subtreeEnd f ≤ s.num_joints
    ∧ (∀ j, f < j → j < s.subtreeEnd f → (f : Int) ≤ s.joint_parent j)
    ∧ (s.subtreeEnd f < s.num_joints →
        s.joint_parent (s.subtreeEnd f) < (f : Int)) := by
  have hlenL : (List.range' (f + 1) (s.num_joints - (f + 1))).length
      = s.num_joints - (f + 1) := by simp
  have hlen : ((List.range' (f + 1) (s.num_joints - (f + 1))).takeWhile
      (fun j => decide ((f : Int) ≤ s.joint_parent j))).length
        ≤ s.num_joints - (f + 1) := by
    have h1 : ((List.range' (f + 1) (s.num_joints - (f + 1))).takeWhile
        (fun j => decide ((f : Int) ≤ s.joint_parent j))).length
          ≤ (List.range' (f + 1) (s.num_joints - (f + 1))).length :=
      (List.takeWhile_sublist _).length_le
    simpa using h1
  refine ⟨by unfold Skeleton.subtreeEnd; omega, by unfold Skeleton.subtreeEnd; omega, ?_, ?_⟩
  · intro j hj1 hj2
    unfold Skeleton.subtreeEnd at hj2
    obtain ⟨h2, hp⟩ := takeWhile_getElem_true
      (fun j => decide ((f : Int) ≤ s.joint_parent j))
      (List.range' (f + 1) (s.num_joints - (f + 1))) (j - (f + 1)) (by omega)
    rw [List.get_eq_getElem, List.getElem_range'] at hp
    have he : f + 1 + 1 * (j - (f + 1)) = j := by omega
    rw [he] at hp
    exact of_decide_eq_true hp
  · intro hlt
    unfold Skeleton.subtreeEnd at hlt ⊢
    have h2 : ((List.range' (f + 1) (s.num_joints - (f + 1))).takeWhile
        (fun j => decide ((f : Int) ≤ s.joint_parent j))).length
          < (List.range' (f + 1) (s.num_joints - (f + 1))).length := by
      rw [hlenL]; omega
    have := takeWhile_getElem_false
      (fun j => decide ((f : Int) ≤ s.joint_parent j))
      (List.range' (f + 1) (s.num_joints - (f + 1))) h2
    rw [List.get_eq_getElem, List.getElem_range'] at this
    have he : f + 1 + 1 * ((List.range' (f + 1) (s.num_joints - (f + 1))).takeWhile
        (fun j => decide ((f : Int) ≤ s.joint_parent j))).length
          = f + 1 + ((List.range' (f + 1) (s.num_joints - (f + 1))).takeWhile
        (fun j => decide ((f : Int) ≤ s.joint_parent j))).length := by omega
    rw [he] at this
    have := of_decide_eq_false this
    omega

theorem inSubtree_of_block (s : Skeleton) (f : Nat) (hinv : s.preOrderInv)
    (hend : s.subtreeEnd f ≤ s.num_joints)
    (hin : ∀ j, f < j → j < s.subtreeEnd f → (f : Int) ≤ s.joint_parent j) :
    ∀ j, f ≤ j → j < s.subtreeEnd f → s.inSubtree f j := by
  intro j
  induction j using Nat.strong_induction_on with
  | _ j ih =>
    intro hfj hje
    rcases Nat.eq_or_lt_of_le hfj with heq | hlt
    · rw [← heq]
      exact Relation.ReflTransGen.refl
    · have hp := hin j hlt hje
      have hpj : s.joint_parent j < (j : Int) := hinv.2 j (by omega) (by omega)
      have hnn : (0 : Int) ≤ s.joint_parent j :=
        le_trans (Int.natCast_nonneg f) hp
      have hpe : s.joint_parent j = ((s.joint_parent j).toNat : Int) :=
        (Int.toNat_of_nonneg hnn).symm
      have hfp : f ≤ (s.joint_parent j).toNat := by omega
      have hplt : (s.joint_parent j).toNat < j := by omega
      have hsub := ih (s.joint_parent j).toNat hplt hfp (by omega)
      exact Relation.ReflTransGen.head ⟨by omega, hpe⟩ hsub

theorem no_chain_from_below (s : Skeleton) (f : Nat) (hinv : s.preOrderInv) :
    ∀ x, x < f → ¬ s.inSubtree f x := by
  intro x
  induction x using Nat.strong_induction_on with
  | _ x ih =>
    intro hxf hchain
    rcases Relation.ReflTransGen.cases_head hchain with heq | ⟨c, ⟨hxn, hxp⟩, hrest⟩
    · omega
    · by_cases hx0 : x = 0
      · rw [hx0] at hxp
        rw [hinv.1] at hxp
        omega
      · have hdec : s.joint_parent x < (x : Int) := hinv.2 x hxn (by omega)
        have hcx : c < x := by omega
        exact ih c hcx (by omega) hrest

/-- C1: starting the forward traversal at a stored joint f of a skeleton
in pre-order storage, the trace is exactly the contiguous index block
from f up to the subtree end, each joint paired with its stored parent in
increasing index order; every joint of that block lies in the subtree
rooted at f, every joint after f in the block passes the parent-at-least-f
test, and the traversal stops at the first joint failing that test (or at
the end of the array), a joint that is outside the subtree rooted at f. -/
theorem c1_iter_depth_first_subtree (s : Skeleton) (f : Nat)
    (hinv : s.preOrderInv) (hf : f < s.num_joints) :
    s.iter_depth_first (f : Int)
        = (List.range' f (s.subtreeEnd f - f)).map (fun j => (j, s.joint_parent j))
    ∧ f < s.subtreeEnd f
    ∧ s.subtreeEnd f ≤ s.num_joints
    ∧ (∀ j, f < j → j < s.subtreeEnd f → (f : Int) ≤ s.joint_parent j)
    ∧ (s.subtreeEnd f < s.num_joints →
        s.joint_parent (s.subtreeEnd f) < (f : Int))
    ∧ (∀ j, f ≤ j → j < s.subtreeEnd f → s.inSubtree f j)
    ∧ (s.subtreeEnd f < s.num_joints → ¬ s.inSubtree f (s.subtreeEnd f)) := by
  obtain ⟨hfe, hen, hin, hstop⟩ := subtreeEnd_facts s f hf
  refine ⟨?_, hfe, hen, hin, hstop, inSubtree_of_block s f hinv hen hin, ?_⟩
  · unfold Skeleton.iter_depth_first
    have h0 : ¬ ((f : Int) < 0) := by omega
    simp only [if_neg h0, Int.toNat_natCast, if_pos hf]
    exact iterDFAux_eq_range' s (f : Int) (s.subtreeEnd f) hen hstop
      (s.num_joints - f) f hfe (by omega) (fun j hj1 hj2 => hin j hj1 hj2)
  · intro hlt hchain
    rcases Relation.ReflTransGen.cases_head hchain with heq | ⟨c, ⟨hxn, hxp⟩, hrest⟩
    · omega
    · have hpe := hstop hlt
      have hcf : c < f := by omega
      exact no_chain_from_below s f hinv c hcf hrest

/-- Witness for C1 on the concrete skeleton, starting at joint 1 whose
subtree is the block of joints 1, 2, 3. -/
theorem c1_iter_depth_first_subtree_witness :
    sk5.iter_depth_first ((1 : Nat) : Int)
        = (List.range' 1 (sk5.subtreeEnd 1 - 1)).map (fun j => (j, sk5.joint_parent j))
    ∧ 1 < sk5.subtreeEnd 1
    ∧ sk5.subtreeEnd 1 ≤ sk5.num_joints
    ∧ (∀ j, 1 < j → j < sk5.subtreeEnd 1 → ((1 : Nat) : Int) ≤ sk5.joint_parent j)
    ∧ (sk5.subtreeEnd 1 < sk5.num_joints →
        sk5.joint_parent (sk5.subtreeEnd 1) < ((1 : Nat) : Int))
    ∧ (∀ j, 1 ≤ j → j < sk5.subtreeEnd 1 → sk5.inSubtree 1 j)
    ∧ (sk5.subtreeEnd 1 < sk5.num_joints → ¬ sk5.inSubtree 1 (sk5.subtreeEnd 1)) :=
  c1_iter_depth_first_subtree sk5 1 (by constructor <;> decide) (by decide)

/-- C3: a negative start index makes the forward traversal begin at the
root and, when every stored parent entry is at least the root sentinel
-1, emit every joint exactly once in increasing index order, each paired
with its stored parent. -/
theorem c3_iter_from_root (s : Skeleton) (fromI : Int) (hneg : fromI < 0)
    (hpar : ∀ i, i < s.num_joints → -1 ≤ s.joint_parent i) :
    s.iter_depth_first fromI
      = (List.range s.num_joints).map (fun j => (j, s.joint_parent j)) := by
  unfold Skeleton.iter_depth_first
  simp only [if_pos hneg]
  by_cases h0 : 0 < s.num_joints
  · rw [if_pos h0]
    rw [List.range_eq_range']
    have := iterDFAux_eq_range' s fromI s.num_joints (le_refl _) (by omega)
      (s.num_joints - 0) 0 h0 (by omega)
      (fun j _ hj2 => le_trans (by omega) (hpar j hj2))
    simpa using this
  · rw [if_neg h0]
    have hz : s.num_joints = 0 := by omega
    rw [hz]
    rfl

/-- Witness for C3 on the concrete skeleton. -/
theorem c3_iter_from_root_witness :
    sk5.iter_depth_first (-1)
      = (List.range sk5.num_joints).map (fun j => (j, sk5.joint_parent j)) :=
  c3_iter_from_root sk5 (-1) (by decide) (by decide)

theorem find?_snd_of_mem {l : List (String × Int)}
    (hr : l.Pairwise (fun p q => p.2 ≠ q.2)) {x : String × Int} (hm : x ∈ l) :
    l.find? (fun p => decide (p.2 = x.2)) = some x := by
  induction l with
  | nil => cases hm
  | cons a t ih =>
    rcases List.mem_cons.mp hm with heq | hmt
    · rw [← heq]
      exact List.find?_cons_of_pos t (by simp)
    · have ha : a.2 ≠ x.2 := (List.pairwise_cons.mp hr).1 x hmt
      rw [List.find?_cons_of_neg t (by simp [ha])]
      exact ih (List.pairwise_cons.mp hr).2 hmt

theorem find?_fst_of_mem {l : List (String × Int)}
    (hl : l.Pairwise (fun p q => p.1 ≠ q.1)) {x : String × Int} (hm : x ∈ l) :
    l.find? (fun p => decide (p.1 = x.1)) = some x := by
  induction l with
  | nil => cases hm
  | cons a t ih =>
    rcases List.mem_cons.mp hm with heq | hmt
    · rw [← heq]
      exact List.find?_cons_of_pos t (by simp)
    · have ha : a.1 ≠ x.1 := (List.pairwise_cons.mp hl).1 x hmt
      rw [List.find?_cons_of_neg t (by simp [ha])]
      exact ih (List.pairwise_cons.mp hl).2 hmt

/-- C8: name-to-index and index-to-name lookup are mutually inverse
partial functions on every skeleton: each direction's success determines
the other's. -/
theorem c8_name_index_inverse (s : Skeleton) (name : String) (idx : Int) :
    s.joint_by_name name = some idx ↔ s.name_by_joint idx = some name := by
  unfold Skeleton.joint_by_name Skeleton.name_by_joint
  unfold JointHashMap.get_by_left JointHashMap.get_by_right
  constructor
  · intro h
    obtain ⟨p, hfind, hsnd⟩ := Option.map_eq_some'.mp h
    have hmem := List.mem_of_find?_eq_some hfind
    have h1 : p.1 = name := by
      have := List.find?_some hfind
      simpa using this
    have hx : p = (name, idx) := Prod.ext h1 hsnd
    rw [hx] at hmem
    have := find?_snd_of_mem s.joint_names.right_uniq hmem
    rw [this]
    rfl
  · intro h
    obtain ⟨p, hfind, hfst⟩ := Option.map_eq_some'.mp h
    have hmem := List.mem_of_find?_eq_some hfind
    have h1 : p.2 = idx := by
      have := List.find?_some hfind
      simpa using this
    have hx : p = (name, idx) := Prod.ext hfst h1
    rw [hx] at hmem
    have := find?_fst_of_mem s.joint_names.left_uniq hmem
    rw [this]
    rfl

/-- C9: with a valid tag and version, a zero joint count or a
header-only request returns at once: version 2, the decoded count, empty
name map and empty parent vector, with only the joint count consumed
from the stream. -/
theorem c9_read_meta_header_only (a : Archive) (w : Bool) (n : Int)
    (rest : List (Except OzzError Val))
    (htag : a.tag = skeletonTag) (hver : a.version = skeletonVersion)
    (hitems : a.items = .ok (.vi32 n) :: rest)
    (hcase : n = 0 ∨ w = false) :
    readMeta a w
      = .ok (⟨skeletonVersion, n, JointHashMap.empty, []⟩,
          ⟨a.tag, a.version, rest⟩) := by
  unfold readMeta Archive.readI32 Archive.readItem
  rw [hitems]
  simp [htag, hver, Val.toI32, hcase]

/-- Concrete archive for the C9 witness: valid header, joint count 0,
one further unread item. -/
def arch9 : Archive := ⟨"ozz-skeleton", 2, [.ok (.vi32 0), .ok (.vstr "x")]⟩

/-- Witness for C9 on a concrete archive. -/
theorem c9_read_meta_header_only_witness :
    readMeta arch9 true
      = .ok (⟨skeletonVersion, 0, JointHashMap.empty, []⟩,
          ⟨"ozz-skeleton", 2, [.ok (.vstr "x")]⟩) :=
  c9_read_meta_header_only arch9 true 0 [.ok (.vstr "x")] rfl rfl rfl (Or.inl rfl)

theorem readItem_error {a : Archive} {e : OzzError} (h : a.readItem = .error e) :
    .error e ∈ a.items ∨ e = .io 0 := by
  unfold Archive.readItem at h
  match hx : a.items with
  | [] =>
    right
    rw [hx] at h
    injection h with h2
    exact h2.symm
  | .error e2 :: rest =>
    left
    rw [hx] at h
    injection h with h2
    rw [← h2]
    exact List.mem_cons_self _ _
  | .ok v :: rest => rw [hx] at h; cases h

theorem readItem_ok_sub {a : Archive} {v : Val} {a' : Archive}
    (h : a.readItem = .ok (v, a')) : ∀ x, x ∈ a'.items → x ∈ a.items := by
  unfold Archive.readItem at h
  match hx : a.items with
  | [] => rw [hx] at h; cases h
  | .error e2 :: rest => rw [hx] at h; cases h
  | .ok v2 :: rest =>
    rw [hx] at h
    injection h with h2
    injection h2 with h3 h4
    intro x hm
    rw [← h4] at hm
    simp only at hm
    exact List.mem_cons_of_mem _ hm

theorem readI32_error {a : Archive} {e : OzzError} (h : a.readI32 = .error e) :
    .error e ∈ a.items ∨ e = .io 0 := by
  unfold Archive.readI32 at h
  match hx : a.readItem with
  | .error e2 => rw [hx] at h; injection h with h2; rw [← h2]; exact readItem_error hx
  | .ok (v, a2) => rw [hx] at h; cases h

theorem readI32_ok_sub {a : Archive} {v : Int} {a' : Archive}
    (h : a.readI32 = .ok (v, a')) : ∀ x, x ∈ a'.items → x ∈ a.items := by
  unfold Archive.readI32 at h
  match hx : a.readItem with
  | .error e2 => rw [hx] at h; cases h
  | .ok (v2, a2) =>
    rw [hx] at h
    injection h with h2
    injection h2 with h3 h4
    rw [← h4]
    exact readItem_ok_sub hx

theorem readStr_error {a : Archive} {e : OzzError} (h : a.readStr = .error e) :
    .error e ∈ a.items ∨ e = .io 0 := by
  unfold Archive.readStr at h
  match hx : a.readItem with
  | .error e2 => rw [hx] at h; injection h with h2; rw [← h2]; exact readItem_error hx
  | .ok (v, a2) => rw [hx] at h; cases h

theorem readStr_ok_sub {a : Archive} {v : String} {a' : Archive}
    (h : a.readStr = .ok (v, a')) : ∀ x, x ∈ a'.items → x ∈ a.items := by
  unfold Archive.readStr at h
  match hx : a.readItem with
  | .error e2 => rw [hx] at h; cases h
  | .ok (v2, a2) =>
    rw [hx] at h
    injection h with h2
    injection h2 with h3 h4
    rw [← h4]
    exact readItem_ok_sub hx

theorem readI16Vec_error {a : Archive} {n : Nat} {e : OzzError}
    (h : a.readI16Vec n = .error e) : .error e ∈ a.items ∨ e = .io 0 := by
  unfold Archive.readI16Vec at h
  match hx : a.readItem with
  | .error e2 => rw [hx] at h; injection h with h2; rw [← h2]; exact readItem_error hx
  | .ok (v, a2) => rw [hx] at h; cases h

theorem readTransform_error {a : Archive} {e : OzzError}
    (h : a.readTransform = .error e) : .error e ∈ a.items ∨ e = .io 0 := by
  unfold Archive.readTransform at h
  match hx : a.readItem with
  | .error e2 => rw [hx] at h; injection h with h2; rw [← h2]; exact readItem_error hx
  | .ok (v, a2) => rw [hx] at h; cases h

theorem readTransform_ok_sub {a : Archive} {t : SoaTransform} {a' : Archive}
    (h : a.readTransform = .ok (t, a')) : ∀ x, x ∈ a'.items → x ∈ a.items := by
  unfold Archive.readTransform at h
  match hx : a.readItem with
  | .error e2 => rw [hx] at h; cases h
  | .ok (v2, a2) =>
    rw [hx] at h
    injection h with h2
    injection h2 with h3 h4
    rw [← h4]
    exact readItem_ok_sub hx

theorem readNamesAux_cases :
    ∀ (k : Nat) (a : Archive) (m : JointHashMap) (idx total : Nat),
      total - idx ≤ k →
      (∀ e, readNamesAux a m idx total = .error e →
        .error e ∈ a.items ∨ e = .io 0)
      ∧ (∀ m' a', readNamesAux a m idx total = .ok (m', a') →
          ∀ x, x ∈ a'.items → x ∈ a.items) := by
  intro k
  induction k with
  | zero =>
    intro a m idx total hk
    constructor
    · intro e h
      rw [readNamesAux, dif_neg (by omega)] at h
      cases h
    · intro m' a' h
      rw [readNamesAux, dif_neg (by omega)] at h
      injection h with h2
      injection h2 with h3 h4
      rw [← h4]
      exact fun x hx => hx
  | succ g ih =>
    intro a m idx total hk
    by_cases hlt : idx < total
    · constructor
      · intro e h
        rw [readNamesAux, dif_pos hlt] at h
        match hs : a.readStr with
        | .error e2 =>
          rw [hs] at h
          injection h with h2
          rw [← h2]
          exact readStr_error hs
        | .ok (s2, a2) =>
          rw [hs] at h
          have := ((ih a2 (m.insert s2 (Int.bmod idx (2 ^ 16))) (idx + 1) total
            (by omega)).1 e h)
          rcases this with hm | hio
          · exact Or.inl (readStr_ok_sub hs _ hm)
          · exact Or.inr hio
      · intro m' a' h
        rw [readNamesAux, dif_pos hlt] at h
        match hs : a.readStr with
        | .error e2 => rw [hs] at h; cases h
        | .ok (s2, a2) =>
          rw [hs] at h
          intro x hx
          exact readStr_ok_sub hs x
            ((ih a2 (m.insert s2 (Int.bmod idx (2 ^ 16))) (idx + 1) total
              (by omega)).2 m' a' h x hx)
    · constructor
      · intro e h
        rw [readNamesAux, dif_neg hlt] at h
        cases h
      · intro m' a' h
        rw [readNamesAux, dif_neg hlt] at h
        injection h with h2
        injection h2 with h3 h4
        rw [← h4]
        exact fun x hx => hx

theorem readPoses_cases :
    ∀ (cnt : Nat) (a : Archive),
      (∀ e, readPoses a cnt = .error e → .error e ∈ a.items ∨ e = .io 0)
      ∧ (∀ ts a', readPoses a cnt = .ok (ts, a') →
          ts.length = cnt ∧ ∀ x, x ∈ a'.items → x ∈ a.items) := by
  intro cnt
  induction cnt with
  | zero =>
    intro a
    constructor
    · intro e h; cases h
    · intro ts a' h
      injection h with h2
      injection h2 with h3 h4
      rw [← h3, ← h4]
      exact ⟨rfl, fun x hx => hx⟩
  | succ g ih =>
    intro a
    constructor
    · intro e h
      unfold readPoses at h
      split at h
      · injection h with h2
        rename_i e2 hs
        rw [← h2]
        exact readTransform_error hs
      · rename_i t a2 hs
        split at h
        · injection h with h2
          rename_i e2 hp
          rw [← h2]
          rcases (ih a2).1 e2 hp with hm | hio
          · exact Or.inl (readTransform_ok_sub hs _ hm)
          · exact Or.inr hio
        · cases h
    · intro ts a' h
      unfold readPoses at h
      split at h
      · cases h
      · rename_i t a2 hs
        split at h
        · cases h
        · rename_i ts2 a3 hp
          injection h with h2
          injection h2 with h3 h4
          obtain ⟨hlen, hsub⟩ := (ih a2).2 ts2 a3 hp
          rw [← h3, ← h4]
          refine ⟨by simp [hlen], ?_⟩
          intro x hx
          exact readTransform_ok_sub hs x (hsub x hx)

theorem readI16Vec_ok_sub {a : Archive} {n : Nat} {v : List Int} {a' : Archive}
    (h : a.readI16Vec n = .ok (v, a')) : ∀ x, x ∈ a'.items → x ∈ a.items := by
  unfold Archive.readI16Vec at h
  match hx : a.readItem with
  | .error e2 => rw [hx] at h; cases h
  | .ok (v2, a2) =>
    rw [hx] at h
    injection h with h2
    injection h2 with h3 h4
    rw [← h4]
    exact readItem_ok_sub hx

theorem readMeta_error {a : Archive} {w : Bool} {e : OzzError}
    (h : readMeta a w = .error e) :
    e = .InvalidTag ∨ e = .InvalidVersion ∨ .error e ∈ a.items ∨ e = .io 0 := by
  unfold readMeta at h
  split at h
  · injection h with h2
    exact Or.inl h2.symm
  · split at h
    · injection h with h2
      exact Or.inr (Or.inl h2.symm)
    · split at h
      · rename_i e2 hi
        injection h with h2
        rw [← h2]
        rcases readI32_error hi with hm | hio
        · exact Or.inr (Or.inr (Or.inl hm))
        · exact Or.inr (Or.inr (Or.inr hio))
      · rename_i numJoints a1 hi
        split at h
        · cases h
        · split at h
          · rename_i e2 hi2
            injection h with h2
            rw [← h2]
            rcases readI32_error hi2 with hm | hio
            · exact Or.inr (Or.inr (Or.inl (readI32_ok_sub hi _ hm)))
            · exact Or.inr (Or.inr (Or.inr hio))
          · rename_i c a2 hi2
            split at h
            · rename_i e2 hn
              injection h with h2
              rw [← h2]
              rcases (readNamesAux_cases numJoints.toNat a2 JointHashMap.empty
                  0 numJoints.toNat (by omega)).1 e2 hn with hm | hio
              · exact Or.inr (Or.inr (Or.inl
                  (readI32_ok_sub hi _ (readI32_ok_sub hi2 _ hm))))
              · exact Or.inr (Or.inr (Or.inr hio))
            · rename_i names a3 hn
              split at h
              · rename_i e2 hv
                injection h with h2
                rw [← h2]
                rcases readI16Vec_error hv with hm | hio
                · exact Or.inr (Or.inr (Or.inl (readI32_ok_sub hi _
                    (readI32_ok_sub hi2 _
                      ((readNamesAux_cases numJoints.toNat a2 JointHashMap.empty
                        0 numJoints.toNat (by omega)).2 names a3 hn _ hm)))))
                · exact Or.inr (Or.inr (Or.inr hio))
              · cases h

theorem readMeta_ok_sub {a : Archive} {w : Bool} {m : SkeletonMeta} {a' : Archive}
    (h : readMeta a w = .ok (m, a')) : ∀ x, x ∈ a'.items → x ∈ a.items := by
  unfold readMeta at h
  split at h
  · cases h
  · split at h
    · cases h
    · split at h
      · cases h
      · rename_i numJoints a1 hi
        split at h
        · injection h with h2
          injection h2 with h3 h4
          rw [← h4]
          exact readI32_ok_sub hi
        · split at h
          · cases h
          · rename_i c a2 hi2
            split at h
            · cases h
            · rename_i names a3 hn
              split at h
              · cases h
              · rename_i parents a4 hv
                injection h with h2
                injection h2 with h3 h4
                rw [← h4]
                intro x hx
                exact readI32_ok_sub hi _ (readI32_ok_sub hi2 _
                  ((readNamesAux_cases numJoints.toNat a2 JointHashMap.empty
                    0 numJoints.toNat (by omega)).2 names a3 hn _
                      (readI16Vec_ok_sub hv x hx)))

theorem fromArchive_error {a : Archive} {e : OzzError}
    (h : fromArchive a = .error e) :
    e = .InvalidTag ∨ e = .InvalidVersion ∨ .error e ∈ a.items ∨ e = .io 0 := by
  unfold fromArchive at h
  split at h
  · rename_i e2 hm
    injection h with h2
    rw [← h2]
    exact readMeta_error hm
  · rename_i meta a1 hm
    split at h
    · rename_i e2 hp
      injection h with h2
      rw [← h2]
      rcases (readPoses_cases _ a1).1 e2 hp with hmem | hio
      · exact Or.inr (Or.inr (Or.inl (readMeta_ok_sub hm _ hmem)))
      · exact Or.inr (Or.inr (Or.inr hio))
    · cases h

/-- C5: decoding rejects a wrong tag with InvalidTag and a wrong version
with InvalidVersion; a failure of an underlying read is propagated
unchanged (a failing item of the stream, or the IO error signalling a
truncated stream), a failing read at the head of a validated stream fails
the whole decode with that very error, and on any error no SkeletonMeta
or Skeleton value is returned. -/
theorem c5_decode_failure_policy (a : Archive) (w : Bool) :
    (a.tag ≠ skeletonTag →
      readMeta a w = .error .InvalidTag ∧ fromArchive a = .error .InvalidTag)
    ∧ (a.tag = skeletonTag → a.version ≠ skeletonVersion →
        readMeta a w = .error .InvalidVersion
        ∧ fromArchive a = .error .InvalidVersion)
    ∧ (∀ e rest, a.tag = skeletonTag → a.version = skeletonVersion →
        a.items = .error e :: rest → readMeta a w = .error e)
    ∧ (∀ e, readMeta a w = .error e →
        e = .InvalidTag ∨ e = .InvalidVersion ∨ .error e ∈ a.items ∨ e = .io 0)
    ∧ (∀ e, fromArchive a = .error e →
        e = .InvalidTag ∨ e = .InvalidVersion ∨ .error e ∈ a.items ∨ e = .io 0)
    ∧ (∀ e m a1, readMeta a w = .error e → readMeta a w ≠ .ok (m, a1))
    ∧ (∀ e sk a1, fromArchive a = .error e → fromArchive a ≠ .ok (sk, a1)) := by
  refine ⟨?_, ?_, ?_, ?_, ?_, ?_, ?_⟩
  · intro htag
    have h1 : ∀ w2, readMeta a w2 = .error .InvalidTag := by
      intro w2
      unfold readMeta
      rw [if_pos htag]
    refine ⟨h1 w, ?_⟩
    unfold fromArchive
    rw [h1 true]
  · intro htag hver
    have h1 : ∀ w2, readMeta a w2 = .error .InvalidVersion := by
      intro w2
      unfold readMeta
      rw [if_neg (by rw [htag]; exact fun hc => hc rfl), if_pos hver]
    refine ⟨h1 w, ?_⟩
    unfold fromArchive
    rw [h1 true]
  · intro e rest htag hver hitems
    unfold readMeta Archive.readI32 Archive.readItem
    rw [hitems]
    simp [htag, hver]
  · exact fun e h => readMeta_error h
  · exact fun e h => fromArchive_error h
  · intro e m a1 h
    rw [h]
    exact fun hc => Except.noConfusion hc
  · intro e sk a1 h
    rw [h]
    exact fun hc => Except.noConfusion hc

/-- Witness for C5 on concrete archives: a wrong tag, a wrong version,
and a validated header followed by a failing read. -/
theorem c5_decode_failure_policy_witness :
    (readMeta (⟨"not-a-skeleton", 2, []⟩ : Archive) true = .error .InvalidTag
      ∧ fromArchive (⟨"not-a-skeleton", 2, []⟩ : Archive) = .error .InvalidTag)
    ∧ (readMeta (⟨"ozz-skeleton", 1, []⟩ : Archive) true = .error .InvalidVersion
      ∧ fromArchive (⟨"ozz-skeleton", 1, []⟩ : Archive) = .error .InvalidVersion)
    ∧ readMeta (⟨"ozz-skeleton", 2, [.error (.io 7)]⟩ : Archive) true
        = .error (.io 7) :=
  ⟨(c5_decode_failure_policy ⟨"not-a-skeleton", 2, []⟩ true).1 (by decide),
   (c5_decode_failure_policy ⟨"ozz-skeleton", 1, []⟩ true).2.1 rfl (by decide),
   (c5_decode_failure_policy ⟨"ozz-skeleton", 2, [.error (.io 7)]⟩ true).2.2.1
     (.io 7) [] rfl rfl rfl⟩

theorem natCast_add3_div4_eq_ceil (n : Nat) :
    (((n + 3) / 4 : Nat) : ℤ) = ⌈(n : ℚ) / 4⌉ := by
  symm
  rw [Int.ceil_eq_iff]
  have hq : (0 : ℚ) < 4 := by norm_num
  have hcast1 : ((n : ℚ)) ≤ ((((n + 3) / 4 : ℕ) : ℚ)) * 4 := by
    exact_mod_cast (by omega : n ≤ ((n + 3) / 4) * 4)
  have hcast2 : ((((n + 3) / 4 : ℕ) : ℚ)) * 4 ≤ (n : ℚ) + 3 := by
    exact_mod_cast (by omega : ((n + 3) / 4) * 4 ≤ n + 3)
  constructor
  · rw [lt_div_iff₀ hq, Int.cast_natCast]
    linarith
  · rw [div_le_iff₀ hq, Int.cast_natCast]
    linarith

theorem tdiv_toNat_eq_ceil (m : Int) (hm : 0 ≤ m) :
    (((Int.tdiv (m + 3) 4).toNat : Nat) : ℤ) = ⌈(m : ℚ) / 4⌉ := by
  obtain ⟨k, rfl⟩ := Int.eq_ofNat_of_zero_le hm
  have h1 : ((k : Int) + 3) = ((k + 3 : Nat) : Int) := by push_cast; ring
  rw [h1, show ((4 : Int) = ((4 : Nat) : Int)) from rfl, ← Int.ofNat_tdiv,
    Int.toNat_natCast]
  have h2 : ((k : Int) : ℚ) = (k : ℚ) := by push_cast; ring
  rw [h2]
  exact natCast_add3_div4_eq_ceil k

/-- C6: the SoA group count is the joint count divided by four rounded
up, and a successfully decoded skeleton carries exactly that many
SoA-packed rest-pose records for the decoded joint count. -/
theorem c6_soa_counts :
    (∀ s : Skeleton, s.num_joints + 3 < 2 ^ 64 →
      (s.num_soa_joints : ℤ) = ⌈(s.num_joints : ℚ) / 4⌉)
    ∧ (∀ a sk a2 meta a1, fromArchive a = .ok (sk, a2) →
        readMeta a true = .ok (meta, a1) → 0 ≤ meta.num_joints →
        (sk.joint_rest_poses.length : ℤ) = ⌈(meta.num_joints : ℚ) / 4⌉) := by
  constructor
  · intro s h
    unfold Skeleton.num_soa_joints
    unfold Skeleton.num_joints at h ⊢
    rw [Nat.mod_eq_of_lt h]
    exact natCast_add3_div4_eq_ceil _
  · intro a sk a2 meta a1 hfa hrm hnn
    unfold fromArchive at hfa
    rw [hrm] at hfa
    split at hfa
    · cases hfa
    · rename_i m2 a3 hp
      injection hp with hp2
      injection hp2 with hp3 hp4
      subst hp3
      subst hp4
      split at hfa
      · cases hfa
      · rename_i ts a4 hpp
        injection hfa with h2
        injection h2 with h3 h4
        obtain ⟨hlen, _⟩ := (readPoses_cases _ a1).2 ts a4 hpp
        rw [← h3]
        show ((ts.length : Nat) : ℤ) = _
        rw [hlen]
        exact tdiv_toNat_eq_ceil meta.num_joints hnn

/-- Concrete skeleton with 67 joints in a single pre-order chain, used to
instantiate C6: joint 0 is the root, joint 66 has parent 65. -/
def sk67 : Skeleton :=
  ⟨[], -1 :: (List.range 66).map (fun i => (i : Int)), JointHashMap.empty⟩

/-- Concrete archive with a valid header and joint count 0, used to
instantiate the decoding half of C6. -/
def arch0 : Archive := ⟨"ozz-skeleton", 2, [.ok (.vi32 0)]⟩

/-- Witness for C6: 67 joints give 17 SoA groups, and a decode of a
zero-joint archive produces as many rest poses as the rounded-up quarter
of the decoded joint count. -/
theorem c6_soa_counts_witness :
    sk67.num_soa_joints = 17
    ∧ (sk67.num_soa_joints : ℤ) = ⌈(sk67.num_joints : ℚ) / 4⌉
    ∧ (((⟨[], [], JointHashMap.empty⟩ : Skeleton).joint_rest_poses.length : ℤ)
        = ⌈(((⟨skeletonVersion, 0, JointHashMap.empty, []⟩ : SkeletonMeta).num_joints : ℚ)) / 4⌉) :=
  ⟨by decide,
   c6_soa_counts.1 sk67 (by decide),
   c6_soa_counts.2 arch0 ⟨[], [], JointHashMap.empty⟩ ⟨"ozz-skeleton", 2, []⟩
     ⟨skeletonVersion, 0, JointHashMap.empty, []⟩ ⟨"ozz-skeleton", 2, []⟩
     rfl rfl (by decide)⟩

end Ozz
